import Mathlib

/-
Verification of the bulk-tiered pricing engine of the Sanchay group-buying
marketplace.

Shallow embedding of:
  * supabase/functions/pricing-calculator/index.ts  (edge-function pricing)
  * src/components/Orders/OrderManagement.tsx       (JoinOrderModal: cart,
    calculateItemPrice, handleSubmit, order-status buttons)
  * src/hooks (useOrderRealtime: client-side order total maintenance)
  * PaymentReceiptModal (confirmPayment status write)

Monetary values are embedded as rationals (the JS code works on IEEE
doubles, but every flow relevant here performs a bounded number of exact
decimal operations, so `Rat` is the faithful exact model; the single spot
where JS produces a non-finite double - division by a zero base total -
is modelled explicitly with `Option`, `none` standing for NaN/Infinity).
Quantities are embedded as integers: the JS code never restricts them,
and all call sites pass integral numbers.
-/

namespace Sanchay

/-- A bulk discount tier: one row of the `bulk_tiers` table
(`min_quantity integer`, `price_per_unit decimal`). -/
structure BulkTier where
  min_quantity : Int
  price_per_unit : Rat
deriving DecidableEq, Repr

/-- The pricing-relevant fields of an `inventory` row:
`base_price decimal` together with its `bulk_tiers (*)` child rows. -/
structure InventoryItem where
  base_price : Rat
  bulk_tiers : List BulkTier
deriving DecidableEq, Repr

/-- Descending comparison on `min_quantity`: the order produced by the JS
comparator `(a, b) => b.min_quantity - a.min_quantity` used in both
`pricing-calculator/index.ts` (line 45) and `calculateItemPrice`
(OrderManagement.tsx line 575). -/
def tierGE (a b : BulkTier) : Prop :=
  b.min_quantity ≤ a.min_quantity

instance : DecidableRel tierGE :=
  fun a b => inferInstanceAs (Decidable (b.min_quantity ≤ a.min_quantity))

/-- `Array.prototype.sort` with the comparator above. JS sort is stable
(ECMAScript 2019), and insertion sort along a reflexive total preorder is
the standard stable sort, so ties on `min_quantity` keep array order. -/
def sortTiersDesc (tiers : List BulkTier) : List BulkTier :=
  tiers.insertionSort tierGE

/-- `sortedTiers[0]` of the source: the qualifying tiers
(`total_quantity >= tier.min_quantity`) sorted descending, first element
if any.  This is the tier both resolvers price at. -/
def selectedTier (tiers : List BulkTier) (q : Int) : Option BulkTier :=
  (sortTiersDesc (tiers.filter fun t => decide (t.min_quantity ≤ q))).head?

/-- `bestPrice` of `pricing-calculator/index.ts` lines 38-50: start from
`inventory.base_price`; if the item has tiers and at least one qualifies,
take `sortedTiers[0].price_per_unit`. -/
def bestPrice (inventory : InventoryItem) (total_quantity : Int) : Rat :=
  if inventory.bulk_tiers.length > 0 then
    match selectedTier inventory.bulk_tiers total_quantity with
    | some t => t.price_per_unit
    | none => inventory.base_price
  else inventory.base_price

/-- `x.toFixed(1)` followed by `parseFloat`, on a finite value: round to
one decimal digit.  (`Rat.round` resolves `.05` ties upward while JS
rounds ties away from zero; no statement below touches a tie.) -/
def toFixed1 (x : Rat) : Rat :=
  ((⌊x * 10 + 1 / 2⌋ : Int) : Rat) / 10

/-- The JSON body built by the edge function, lines 58-69.
`savings_percentage` is an `Option`: `none` models the non-finite double
(`0/0 = NaN`, `s/0 = ±Infinity`) that `(savings / originalTotal) * 100`
produces when `originalTotal` is `0` and that `toFixed`/`parseFloat`
propagate. -/
structure PricingResponse where
  inventory_id : Nat
  total_quantity : Int
  base_price : Rat
  discounted_price : Rat
  total_amount : Rat
  savings_amount : Rat
  savings_percentage : Option Rat
  applicable_tier : Option BulkTier
deriving DecidableEq, Repr

/-- Lines 38-69 of `pricing-calculator/index.ts`: price resolution,
savings arithmetic and response assembly for one inventory row. -/
def mkPricingResponse (inventory_id : Nat) (inventory : InventoryItem)
    (total_quantity : Int) : PricingResponse :=
  let bp := bestPrice inventory total_quantity
  let originalTotal := inventory.base_price * (total_quantity : Rat)
  let discountedTotal := bp * (total_quantity : Rat)
  let savings := originalTotal - discountedTotal
  { inventory_id := inventory_id
    total_quantity := total_quantity
    base_price := inventory.base_price
    discounted_price := bp
    total_amount := discountedTotal
    savings_amount := savings
    savings_percentage :=
      if originalTotal = 0 then none
      else some (toFixed1 (savings / originalTotal * 100))
    applicable_tier := inventory.bulk_tiers.find? fun tier =>
      decide (tier.min_quantity ≤ total_quantity) &&
        decide (tier.price_per_unit = bp) }

/-- The request body `{ inventory_id, total_quantity }` (lines 8-11). -/
structure PricingRequest where
  inventory_id : Nat
  total_quantity : Int
deriving DecidableEq, Repr

/-- The `Deno.serve` handler, lines 24-80, over a database modelled as an
association list of inventory rows.  `.single()` rejects when no row
matches `inventory_id`; the thrown error is caught by the surrounding
`try` and returned as an HTTP 400 `{ error }` body, modelled as
`Except.error`.  No other validation exists: in particular
`total_quantity` is used as received. -/
def serveHandler (db : List (Nat × InventoryItem)) (req : PricingRequest) :
    Except String PricingResponse :=
  match db.find? (fun row => decide (row.1 = req.inventory_id)) with
  | none => Except.error "no rows returned"
  | some row => Except.ok (mkPricingResponse req.inventory_id row.2 req.total_quantity)

/-- A `CartItem` of `JoinOrderModal` (OrderManagement.tsx lines 483-490);
the purely descriptive `name` and `unit` fields are omitted, they never
reach any computation. -/
structure CartItem where
  inventory_id : Nat
  base_price : Rat
  quantity : Int
  bulk_tiers : List BulkTier
deriving DecidableEq, Repr

/-- `calculateItemPrice` (OrderManagement.tsx lines 569-583): resolve the
deepest qualifying tier by filter + descending sort, fall back to
`base_price`, and return `price * item.quantity` (the line total). -/
def calculateItemPrice (item : CartItem) : Rat :=
  let price :=
    if item.bulk_tiers.length > 0 then
      match selectedTier item.bulk_tiers item.quantity with
      | some t => t.price_per_unit
      | none => item.base_price
    else item.base_price
  price * (item.quantity : Rat)

/-- One element of the `items` array inserted into `order_participants`
by `handleSubmit` (OrderManagement.tsx lines 600-606). -/
structure SubmittedLine where
  inventory_id : Nat
  quantity : Int
  unit_price : Rat
  total_price : Rat
deriving DecidableEq, Repr

/-- The submitted line built at OrderManagement.tsx lines 601-605.
`unit_price` comes from
`item.bulk_tiers?.find(tier => item.quantity >= tier.min_quantity)?.price_per_unit || item.base_price`:
the FIRST qualifying tier in array order (no sort), with the JS `||`
falling back to `base_price` when `find` misses or the found price is
the falsy `0`.  `total_price` comes from `calculateItemPrice`. -/
def submittedLine (item : CartItem) : SubmittedLine :=
  { inventory_id := item.inventory_id
    quantity := item.quantity
    unit_price :=
      match item.bulk_tiers.find? (fun tier => decide (tier.min_quantity ≤ item.quantity)) with
      | some tier =>
          if tier.price_per_unit = 0 then item.base_price else tier.price_per_unit
      | none => item.base_price
    total_price := calculateItemPrice item }

/-- The fields of an `InventoryItem` row as consumed by `addToCart`
(OrderManagement.tsx lines 536-555). -/
structure StockItem where
  id : Nat
  base_price : Rat
  minimum_quantity : Int
  bulk_tiers : List BulkTier
deriving DecidableEq, Repr

/-- `addToCart` (OrderManagement.tsx lines 536-555): if a line for the
item exists, increment its quantity by 1; otherwise append a new line
whose quantity starts at `item.minimum_quantity`. -/
def addToCart (cart : List CartItem) (item : StockItem) : List CartItem :=
  match cart.find? (fun c => decide (c.inventory_id = item.id)) with
  | some _ =>
      cart.map fun c =>
        if c.inventory_id = item.id then { c with quantity := c.quantity + 1 } else c
  | none =>
      cart ++ [{ inventory_id := item.id, base_price := item.base_price,
                 quantity := item.minimum_quantity, bulk_tiers := item.bulk_tiers }]

/-- `updateQuantity` (OrderManagement.tsx lines 557-567): a quantity
`<= 0` removes the line from the cart; otherwise the line's quantity is
set to the given value. -/
def updateQuantity (cart : List CartItem) (inventory_id : Nat) (quantity : Int) :
    List CartItem :=
  if quantity ≤ 0 then
    cart.filter fun c => decide (c.inventory_id ≠ inventory_id)
  else
    cart.map fun c =>
      if c.inventory_id = inventory_id then { c with quantity := quantity } else c

/-- The two cart mutations reachable from the JoinOrderModal UI: the Add
button (`addToCart`) and the plus/minus quantity buttons
(`updateQuantity`). -/
inductive CartOp where
  | add (item : StockItem)
  | setQty (inventory_id : Nat) (quantity : Int)
deriving DecidableEq, Repr

/-- Apply one UI cart operation. -/
def applyCartOp (cart : List CartItem) : CartOp → List CartItem
  | CartOp.add item => addToCart cart item
  | CartOp.setQty inventory_id quantity => updateQuantity cart inventory_id quantity

/-- Apply a sequence of UI cart operations, left to right. -/
def applyCartOps (cart : List CartItem) (ops : List CartOp) : List CartItem :=
  ops.foldl applyCartOp cart

/-- `true` unless the operation adds a stock item whose
`minimum_quantity` is below 1 (the claims assume catalog rows respect
the schema's positive minimum quantity). -/
def addOk : CartOp → Bool
  | CartOp.add item => decide (1 ≤ item.minimum_quantity)
  | CartOp.setQty _ _ => true

/-- An `order_participants` row as seen by `useOrderRealtime`: its `id`
and its `total_amount`. -/
structure Participant where
  id : Nat
  total_amount : Rat
deriving DecidableEq, Repr

/-- The state held by `useOrderRealtime` (hooks file, lines 78-147):
the `participants` list and the `totalAmount` counter. -/
structure OrderRealtimeState where
  participants : List Participant
  totalAmount : Rat
deriving DecidableEq, Repr

/-- `data.reduce((sum, p) => sum + p.total_amount, 0)` (line 99). -/
def sumTotals (ps : List Participant) : Rat :=
  ps.foldl (fun s p => s + p.total_amount) 0

/-- The state after `fetchParticipants` succeeds (lines 86-103): the
fetched rows with the total computed as a fresh sum. -/
def initialState (ps : List Participant) : OrderRealtimeState :=
  ⟨ps, sumTotals ps⟩

/-- A realtime `postgres_changes` event on `order_participants`, carrying
the affected row (`payload.new` for insert/update, `payload.old` for
delete). -/
inductive OrderEvent where
  | insert (p : Participant)
  | update (p : Participant)
  | delete (p : Participant)
deriving DecidableEq, Repr

/-- The event handler of `useOrderRealtime` (lines 117-137).
INSERT appends the row and PATCHES the counter (`prev + new.total_amount`);
DELETE filters the row out and PATCHES the counter
(`prev - old.total_amount`); UPDATE replaces the row by id and then calls
`fetchParticipants()`, which refetches the rows and recomputes the sum -
in this sequential single-client model the refetched rows are exactly the
replaced list. -/
def applyEvent (s : OrderRealtimeState) : OrderEvent → OrderRealtimeState
  | OrderEvent.insert p => ⟨s.participants ++ [p], s.totalAmount + p.total_amount⟩
  | OrderEvent.update p =>
      let ps := s.participants.map fun q => if q.id = p.id then p else q
      ⟨ps, sumTotals ps⟩
  | OrderEvent.delete p =>
      ⟨s.participants.filter fun q => decide (q.id ≠ p.id), s.totalAmount - p.total_amount⟩

/-- Apply a sequence of realtime events, left to right. -/
def applyEvents (s : OrderRealtimeState) (es : List OrderEvent) : OrderRealtimeState :=
  es.foldl applyEvent s

/-- The ids of the rows currently held. -/
def ids (ps : List Participant) : List Nat :=
  ps.map Participant.id

/-- A realtime event sequence is well formed for a current row list when
every INSERT carries a fresh id and every DELETE carries a row that is
currently present (the row a `payload.old` of a matched delivery always
is). -/
def WellFormed : List Participant → List OrderEvent → Prop
  | _, [] => True
  | ps, OrderEvent.insert p :: es =>
      p.id ∉ ids ps ∧ WellFormed (ps ++ [p]) es
  | ps, OrderEvent.update p :: es =>
      WellFormed (ps.map fun q => if q.id = p.id then p else q) es
  | ps, OrderEvent.delete p :: es =>
      p ∈ ps ∧ WellFormed (ps.filter fun q => decide (q.id ≠ p.id)) es

/-- The `order_status` enum of the schema. -/
inductive OrderStatus where
  | pending
  | confirmed
  | preparing
  | ready
  | delivered
  | cancelled
deriving DecidableEq, Repr

/-- The `profiles.role` values that gate the order UI. -/
inductive Role where
  | vendor
  | supplier
deriving DecidableEq, Repr

/-- Every status write reachable from the order UI, as
(role of the actor, status required to render the control, status written):
the five supplier buttons of OrderManagement.tsx lines 342-390
(Confirm / Decline on `pending`, Start Preparing on `confirmed`,
Mark Ready on `preparing`, Mark Delivered on `ready`) and the vendor
`confirmPayment` write of PaymentReceiptModal (lines 95-99), whose modal
is only reachable through the Receipt button, rendered for vendors when
`order.status === 'delivered'` (OrderManagement.tsx line 321). -/
def uiTransitions : List (Role × OrderStatus × OrderStatus) :=
  [ (Role.supplier, OrderStatus.pending, OrderStatus.confirmed),
    (Role.supplier, OrderStatus.pending, OrderStatus.cancelled),
    (Role.supplier, OrderStatus.confirmed, OrderStatus.preparing),
    (Role.supplier, OrderStatus.preparing, OrderStatus.ready),
    (Role.supplier, OrderStatus.ready, OrderStatus.delivered),
    (Role.vendor, OrderStatus.delivered, OrderStatus.delivered) ]

/-- Position of a status along the forward chain
`pending → confirmed → preparing → ready → delivered`, with the terminal
`cancelled` ranked past the chain. -/
def statusRank : OrderStatus → Nat
  | OrderStatus.pending => 0
  | OrderStatus.confirmed => 1
  | OrderStatus.preparing => 2
  | OrderStatus.ready => 3
  | OrderStatus.delivered => 4
  | OrderStatus.cancelled => 5

/-- `t` carries a `min_quantity` at least as large as every element of
`l`. -/
def isMaxOf (t : BulkTier) (l : List BulkTier) : Bool :=
  l.all fun u => decide (u.min_quantity ≤ t.min_quantity)

/-- The first element of `l`, in array order, whose `min_quantity` is
maximal in `l`. -/
def firstMaxTier (l : List BulkTier) : Option BulkTier :=
  l.find? fun t => isMaxOf t l

/-- Unfolding of `isMaxOf` to a quantified inequality. -/
lemma isMaxOf_iff {t : BulkTier} {l : List BulkTier} :
    isMaxOf t l = true ↔ ∀ u ∈ l, u.min_quantity ≤ t.min_quantity := by
  simp [isMaxOf, List.all_eq_true]

/-- If `find?` with a weaker predicate returns `a`, and a stronger
predicate also holds at `a`, then `find?` with the stronger predicate
returns `a` as well. -/
lemma find?_congr_first {α : Type} {p q : α → Bool} {l : List α} {a : α}
    (h : l.find? p = some a) (hq : q a = true)
    (hpq : ∀ x, q x = true → p x = true) : l.find? q = some a := by
  induction l with
  | nil => simp at h
  | cons b l ih =>
    by_cases hb : p b = true
    · rw [List.find?_cons_of_pos _ hb] at h
      obtain rfl : b = a := by injection h
      rw [List.find?_cons_of_pos _ hq]
    · have hqb : ¬ (q b = true) := fun hqb => hb (hpq b hqb)
      rw [List.find?_cons_of_neg _ hb] at h
      rw [List.find?_cons_of_neg _ hqb]
      exact ih h

/-- Stability of the descending sort: its first element is the first
element, in array order, with maximal `min_quantity`.  This is exactly
what `Array.prototype.sort` (stable since ECMAScript 2019) guarantees
for `sortedTiers[0]`. -/
lemma head?_sortTiersDesc (l : List BulkTier) :
    (sortTiersDesc l).head? = firstMaxTier l := by
  induction l with
  | nil => rfl
  | cons x l ih =>
    rcases eq_or_ne l [] with rfl | hl
    · simp [sortTiersDesc, firstMaxTier, isMaxOf, List.insertionSort]
    · have hperm := List.perm_insertionSort tierGE l
      have hsort_ne : List.insertionSort tierGE l ≠ [] := by
        intro h0
        rw [h0] at hperm
        exact hl hperm.symm.eq_nil
      obtain ⟨h, rest, hrest⟩ := List.exists_cons_of_ne_nil hsort_ne
      unfold sortTiersDesc at ih ⊢
      rw [hrest] at ih
      have hfind : l.find? (fun t => isMaxOf t l) = some h := by
        rw [← firstMaxTier, ← ih]
        rfl
      have hmem : h ∈ l := List.mem_of_find?_eq_some hfind
      have hmax : isMaxOf h l = true := by
        have := List.find?_some hfind
        simpa using this
      rw [List.insertionSort, hrest]
      by_cases hcmp : tierGE x h
      · rw [List.orderedInsert, if_pos hcmp]
        have hx : isMaxOf x (x :: l) = true := by
          rw [isMaxOf_iff]
          intro u hu
          rcases List.mem_cons.mp hu with rfl | hu
          · exact le_refl _
          · exact le_trans (isMaxOf_iff.mp hmax u hu) hcmp
        simp [firstMaxTier, List.find?_cons, hx]
      · rw [List.orderedInsert, if_neg hcmp]
        have hxh : x.min_quantity < h.min_quantity := by
          have := hcmp
          unfold tierGE at this
          omega
        have hnx : isMaxOf x (x :: l) = false := by
          have : ¬ (isMaxOf x (x :: l) = true) := fun hc =>
            absurd (isMaxOf_iff.mp hc h (List.mem_cons_of_mem _ hmem)) (not_le.mpr hxh)
          simpa using this
        rw [firstMaxTier]
        simp only [List.find?_cons, hnx, List.head?_cons]
        refine Eq.symm (find?_congr_first hfind ?_ ?_)
        · show isMaxOf h (x :: l) = true
          rw [isMaxOf_iff]
          intro u hu
          rcases List.mem_cons.mp hu with rfl | hu
          · exact le_of_lt hxh
          · exact isMaxOf_iff.mp hmax u hu
        · intro t ht
          show isMaxOf t l = true
          have ht' : isMaxOf t (x :: l) = true := ht
          rw [isMaxOf_iff] at ht' ⊢
          intro u hu
          exact ht' u (List.mem_cons_of_mem _ hu)

/-- Every nonempty tier list has an element with maximal `min_quantity`. -/
lemma exists_max_tier : ∀ (l : List BulkTier), l ≠ [] →
    ∃ t ∈ l, ∀ u ∈ l, u.min_quantity ≤ t.min_quantity := by
  intro l
  induction l with
  | nil => intro h; cases h rfl
  | cons x l ih =>
    intro _
    rcases eq_or_ne l [] with rfl | hl
    · refine ⟨x, List.mem_cons_self x [], ?_⟩
      intro u hu
      rcases List.mem_cons.mp hu with rfl | hu
      · exact le_refl _
      · cases hu
    · obtain ⟨t, htl, hmax⟩ := ih hl
      by_cases hx : t.min_quantity ≤ x.min_quantity
      · refine ⟨x, List.mem_cons_self x l, ?_⟩
        intro u hu
        rcases List.mem_cons.mp hu with rfl | hu
        · exact le_refl _
        · exact le_trans (hmax u hu) hx
      · refine ⟨t, List.mem_cons_of_mem _ htl, ?_⟩
        intro u hu
        rcases List.mem_cons.mp hu with rfl | hu
        · exact le_of_not_le hx
        · exact hmax u hu

/-- `sortedTiers[0]` is the first qualifying tier, in array order, with
maximal `min_quantity` among the qualifying tiers. -/
lemma selectedTier_eq (tiers : List BulkTier) (q : Int) :
    selectedTier tiers q = firstMaxTier (tiers.filter fun t => decide (t.min_quantity ≤ q)) :=
  head?_sortTiersDesc _

/-- A selected tier is a qualifying tier of the item with maximal
`min_quantity` among the qualifying ones. -/
lemma selectedTier_spec {tiers : List BulkTier} {q : Int} {t : BulkTier}
    (h : selectedTier tiers q = some t) :
    t ∈ tiers ∧ t.min_quantity ≤ q ∧
      ∀ u ∈ tiers, u.min_quantity ≤ q → u.min_quantity ≤ t.min_quantity := by
  rw [selectedTier_eq, firstMaxTier] at h
  have hmem := List.mem_of_find?_eq_some h
  have hpred : isMaxOf t (tiers.filter fun u => decide (u.min_quantity ≤ q)) = true := by
    have := List.find?_some h
    simpa using this
  have hmem' := List.mem_filter.mp hmem
  refine ⟨hmem'.1, by simpa using hmem'.2, ?_⟩
  intro u hu hq
  have hufil : u ∈ tiers.filter (fun v => decide (v.min_quantity ≤ q)) :=
    List.mem_filter.mpr ⟨hu, by simpa using hq⟩
  exact isMaxOf_iff.mp hpred u hufil

/-- When some tier qualifies, a tier is selected. -/
lemma selectedTier_isSome {tiers : List BulkTier} {q : Int}
    (h : ∃ u ∈ tiers, u.min_quantity ≤ q) :
    ∃ t, selectedTier tiers q = some t := by
  obtain ⟨u, hu, huq⟩ := h
  have hufil : u ∈ tiers.filter (fun v => decide (v.min_quantity ≤ q)) :=
    List.mem_filter.mpr ⟨hu, by simpa using huq⟩
  have hne : tiers.filter (fun v => decide (v.min_quantity ≤ q)) ≠ [] := by
    intro h0
    rw [h0] at hufil
    cases hufil
  obtain ⟨t, htL, hmax⟩ := exists_max_tier _ hne
  rw [selectedTier_eq]
  cases hfind : firstMaxTier (tiers.filter fun v => decide (v.min_quantity ≤ q)) with
  | some t' => exact ⟨t', rfl⟩
  | none =>
    exfalso
    rw [firstMaxTier] at hfind
    refine List.find?_eq_none.mp hfind t htL ?_
    simpa [isMaxOf_iff] using hmax

/-- When a tier is selected, `bestPrice` is its `price_per_unit`. -/
lemma bestPrice_eq_of_selected {inventory : InventoryItem} {q : Int} {t : BulkTier}
    (h : selectedTier inventory.bulk_tiers q = some t) :
    bestPrice inventory q = t.price_per_unit := by
  have hne : inventory.bulk_tiers ≠ [] := by
    intro h0
    rw [h0] at h
    simp [selectedTier, sortTiersDesc, List.insertionSort] at h
  have hlen : inventory.bulk_tiers.length > 0 := List.length_pos.mpr hne
  unfold bestPrice
  rw [if_pos hlen, h]

/-- Shifting the accumulator out of the running-total fold. -/
lemma foldl_add_eq (a : Rat) (ps : List Participant) :
    ps.foldl (fun s p => s + p.total_amount) a =
      a + ps.foldl (fun s p => s + p.total_amount) 0 := by
  induction ps generalizing a with
  | nil => simp
  | cons p ps ih =>
    simp only [List.foldl_cons]
    rw [ih (a + p.total_amount), ih (0 + p.total_amount)]
    ring

/-- `sumTotals` over a cons. -/
lemma sumTotals_cons (p : Participant) (ps : List Participant) :
    sumTotals (p :: ps) = p.total_amount + sumTotals ps := by
  simp only [sumTotals, List.foldl_cons]
  rw [foldl_add_eq]
  simp

/-- `sumTotals` over an append. -/
lemma sumTotals_append (ps qs : List Participant) :
    sumTotals (ps ++ qs) = sumTotals ps + sumTotals qs := by
  simp only [sumTotals, List.foldl_append]
  rw [foldl_add_eq]

/-- Replacing a row by id keeps the id list unchanged. -/
lemma ids_update_map (p : Participant) (ps : List Participant) :
    ids (ps.map fun q => if q.id = p.id then p else q) = ids ps := by
  induction ps with
  | nil => rfl
  | cons q ps ih =>
    simp only [List.map_cons, ids, List.map] at ih ⊢
    by_cases h : q.id = p.id
    · rw [if_pos h]
      simp [h, ih]
    · rw [if_neg h]
      simp [ih]

/-- Deleting a present row from a duplicate-free list removes exactly its
amount from the running total. -/
lemma sumTotals_filter_ne {p : Participant} {ps : List Participant}
    (hmem : p ∈ ps) (hnd : (ids ps).Nodup) :
    sumTotals (ps.filter fun q => decide (q.id ≠ p.id)) = sumTotals ps - p.total_amount := by
  induction ps with
  | nil => cases hmem
  | cons q ps ih =>
    have hnd0 : (∀ x ∈ ps, ¬ x.id = q.id) ∧ (ids ps).Nodup := by
      simpa [ids, List.nodup_cons] using hnd
    have hnotid : ∀ r ∈ ps, r.id ≠ q.id := fun r hr => hnd0.1 r hr
    have hnd' : (ids ps).Nodup := hnd0.2
    rcases List.mem_cons.mp hmem with rfl | hmem'
    · have hcond : (decide (p.id ≠ p.id)) = false := by simp
      rw [List.filter_cons, hcond]
      simp only [Bool.false_eq_true, if_false]
      have hall : ∀ r ∈ ps, (decide (r.id ≠ p.id)) = true := by
        intro r hr
        simpa using hnotid r hr
      rw [List.filter_eq_self.mpr hall, sumTotals_cons]
      ring
    · have hqp : (decide (q.id ≠ p.id)) = true := by
        simpa using (hnotid p hmem').symm
      rw [List.filter_cons, hqp]
      simp only [if_true]
      rw [sumTotals_cons, sumTotals_cons, ih hmem' hnd']
      ring

/-- Core induction for the realtime aggregation: starting from a
duplicate-free row list whose counter equals the sum, a well-formed
event sequence keeps the counter equal to the sum of the held rows. -/
lemma applyEvents_consistent : ∀ (es : List OrderEvent) (ps : List Participant),
    (ids ps).Nodup → WellFormed ps es →
    (applyEvents ⟨ps, sumTotals ps⟩ es).totalAmount =
      sumTotals (applyEvents ⟨ps, sumTotals ps⟩ es).participants := by
  intro es
  induction es with
  | nil =>
    intro ps _ _
    simp [applyEvents]
  | cons e es ih =>
    intro ps hnd hwf
    cases e with
    | insert p =>
      obtain ⟨hfresh, hwf'⟩ := hwf
      have hstep : applyEvent ⟨ps, sumTotals ps⟩ (OrderEvent.insert p) =
          (⟨ps ++ [p], sumTotals (ps ++ [p])⟩ : OrderRealtimeState) := by
        simp [applyEvent, sumTotals_append, sumTotals_cons, sumTotals]
      have hnd' : (ids (ps ++ [p])).Nodup := by
        simp only [ids, List.map_append, List.map_cons, List.map_nil]
        rw [List.nodup_append]
        refine ⟨by simpa [ids] using hnd, by simp, ?_⟩
        intro a ha hb
        simp only [List.mem_singleton] at hb
        exact hfresh (hb ▸ ha)
      have hrw : applyEvents ⟨ps, sumTotals ps⟩ (OrderEvent.insert p :: es)
          = applyEvents ⟨ps ++ [p], sumTotals (ps ++ [p])⟩ es := by
        simp only [applyEvents, List.foldl_cons, hstep]
      rw [hrw]
      exact ih _ hnd' hwf'
    | update p =>
      have hwf' := hwf
      have hnd' : (ids (ps.map fun q => if q.id = p.id then p else q)).Nodup := by
        rw [ids_update_map]
        exact hnd
      have hrw : applyEvents ⟨ps, sumTotals ps⟩ (OrderEvent.update p :: es)
          = applyEvents ⟨ps.map fun q => if q.id = p.id then p else q,
              sumTotals (ps.map fun q => if q.id = p.id then p else q)⟩ es := rfl
      rw [hrw]
      exact ih _ hnd' hwf'
    | delete p =>
      obtain ⟨hmem, hwf'⟩ := hwf
      have hstep : applyEvent ⟨ps, sumTotals ps⟩ (OrderEvent.delete p) =
          (⟨ps.filter fun q => decide (q.id ≠ p.id),
            sumTotals (ps.filter fun q => decide (q.id ≠ p.id))⟩ : OrderRealtimeState) := by
        simp only [applyEvent]
        rw [sumTotals_filter_ne hmem hnd]
      have hnd' : (ids (ps.filter fun q => decide (q.id ≠ p.id))).Nodup := by
        refine List.Nodup.sublist ?_ hnd
        exact (List.filter_sublist ps).map Participant.id
      have hrw : applyEvents ⟨ps, sumTotals ps⟩ (OrderEvent.delete p :: es)
          = applyEvents ⟨ps.filter fun q => decide (q.id ≠ p.id),
              sumTotals (ps.filter fun q => decide (q.id ≠ p.id))⟩ es := by
        simp only [applyEvents, List.foldl_cons, hstep]
      rw [hrw]
      exact ih _ hnd' hwf'

/-- Evaluation of the rounding model at the exact value 20. -/
lemma toFixed1_twenty : toFixed1 20 = 20 := by
  have h : ⌊(20 : Rat) * 10 + 1 / 2⌋ = 200 := by
    apply Int.floor_eq_iff.mpr
    constructor <;> norm_num
  rw [toFixed1, h]
  norm_num

/-- C1: for every item, tier set and quantity at least 1 such that some
tier qualifies, the resolver selects a qualifying tier with the largest
`min_quantity` (boundary inclusive) and prices at its `price_per_unit`;
in particular, for base price 100 and tiers 10→90, 25→80, 50→70,
quantity 30 yields unit price 80, line total 2400, base total 3000 and
savings 600 (20.0 percent). -/
theorem resolver_selects_deepest_qualifying_tier :
    (∀ (inventory : InventoryItem) (q : Int), 1 ≤ q →
      (∃ u ∈ inventory.bulk_tiers, u.min_quantity ≤ q) →
      ∃ t, selectedTier inventory.bulk_tiers q = some t ∧ t ∈ inventory.bulk_tiers ∧
        t.min_quantity ≤ q ∧
        (∀ u ∈ inventory.bulk_tiers, u.min_quantity ≤ q → u.min_quantity ≤ t.min_quantity) ∧
        bestPrice inventory q = t.price_per_unit) ∧
    bestPrice ⟨100, [⟨10, 90⟩, ⟨25, 80⟩, ⟨50, 70⟩]⟩ 30 = 80 ∧
    (mkPricingResponse 1 ⟨100, [⟨10, 90⟩, ⟨25, 80⟩, ⟨50, 70⟩]⟩ 30).total_amount = 2400 ∧
    (mkPricingResponse 1 ⟨100, [⟨10, 90⟩, ⟨25, 80⟩, ⟨50, 70⟩]⟩ 30).base_price *
      ((mkPricingResponse 1 ⟨100, [⟨10, 90⟩, ⟨25, 80⟩, ⟨50, 70⟩]⟩ 30).total_quantity : Rat)
        = 3000 ∧
    (mkPricingResponse 1 ⟨100, [⟨10, 90⟩, ⟨25, 80⟩, ⟨50, 70⟩]⟩ 30).savings_amount = 600 ∧
    (mkPricingResponse 1 ⟨100, [⟨10, 90⟩, ⟨25, 80⟩, ⟨50, 70⟩]⟩ 30).savings_percentage
        = some 20 := by
  constructor
  · intro inventory q hq hex
    obtain ⟨t, ht⟩ := selectedTier_isSome hex
    obtain ⟨hmem, hle, hmax⟩ := selectedTier_spec ht
    exact ⟨t, ht, hmem, hle, hmax, bestPrice_eq_of_selected ht⟩
  · refine ⟨by decide, ?_, ?_, ?_, ?_⟩ <;>
      norm_num [mkPricingResponse, bestPrice, selectedTier, sortTiersDesc, tierGE,
        toFixed1_twenty]

/-- C1 witness: the quantity-30 scenario instantiates the selection
property (the selected tier exists). -/
theorem resolver_selects_deepest_qualifying_tier_witness :
    (selectedTier (InventoryItem.mk 100 [⟨10, 90⟩, ⟨25, 80⟩, ⟨50, 70⟩]).bulk_tiers 30).isSome
      = true := by
  obtain ⟨t, ht, -, -, -, -⟩ :=
    resolver_selects_deepest_qualifying_tier.1 ⟨100, [⟨10, 90⟩, ⟨25, 80⟩, ⟨50, 70⟩]⟩ 30
      (by decide) ⟨⟨10, 90⟩, by decide, by decide⟩
  rw [ht]
  rfl

/-- C2 counterexample: the claim fails as stated.  The client counter is
patched incrementally on DELETE (`prev - old.total_amount`), so a remove
event for a participation the client does not hold (the fetch/subscribe
gap makes this reachable) drifts the counter away from the sum of the
held participations: after deleting participant 2 from a state holding
only participant 1, the counter is 5 while the participations sum to
10. -/
theorem order_total_drift_counterexample :
    (applyEvents (initialState [⟨1, 10⟩]) [OrderEvent.delete ⟨2, 5⟩]).totalAmount ≠
      sumTotals (applyEvents (initialState [⟨1, 10⟩])
        [OrderEvent.delete ⟨2, 5⟩]).participants := by
  norm_num [applyEvents, applyEvent, initialState, sumTotals]

/-- C2 amended: for event sequences in which every insert carries a
fresh id and every delete carries a currently held row, the client
counter of `useOrderRealtime` equals the sum of the held participations
after any sequence of insert/update/delete events - the counter is
patched incrementally on insert and delete and fully recomputed only on
update, but under well-formed sequences the patches agree with the
recomputed sum. -/
theorem order_total_consistent_wellformed (ps : List Participant) (es : List OrderEvent)
    (hnd : (ids ps).Nodup) (hwf : WellFormed ps es) :
    (applyEvents (initialState ps) es).totalAmount =
      sumTotals (applyEvents (initialState ps) es).participants :=
  applyEvents_consistent es ps hnd hwf

/-- C2 witness: a concrete well-formed join-then-remove sequence keeps
the counter equal to the sum. -/
theorem order_total_consistent_wellformed_witness :
    (applyEvents (initialState [])
        [OrderEvent.insert ⟨1, 10⟩, OrderEvent.delete ⟨1, 10⟩]).totalAmount =
      sumTotals (applyEvents (initialState [])
        [OrderEvent.insert ⟨1, 10⟩, OrderEvent.delete ⟨1, 10⟩]).participants := by
  refine order_total_consistent_wellformed []
    [OrderEvent.insert ⟨1, 10⟩, OrderEvent.delete ⟨1, 10⟩] ?_ ?_
  · simp [ids]
  · refine ⟨?_, ?_, trivial⟩
    · simp [ids]
    · decide

/-- C3 counterexample: for two tiers sharing `min_quantity = 20`, stored
in array order 85 then 82, quantity 20 selects the FIRST tier in array
order (price 85), not the cheaper 82 the claim asserts. -/
theorem tie_break_counterexample :
    selectedTier [⟨20, 85⟩, ⟨20, 82⟩] 20 = some ⟨20, 85⟩ ∧
    bestPrice ⟨100, [⟨20, 85⟩, ⟨20, 82⟩]⟩ 20 ≠ 82 := by
  decide

/-- C3 amended: the comparator sorts only by `min_quantity` and JS sort
is stable, so among tiers tying on the largest qualifying
`min_quantity` the resolver selects the one earliest in the stored tier
array, regardless of price: the selected tier is always the first
array-order tier of maximal `min_quantity` among the qualifying ones,
and the 85/82 tie resolves to whichever tier is stored first. -/
theorem tie_break_is_array_order :
    (∀ (tiers : List BulkTier) (q : Int),
      selectedTier tiers q =
        firstMaxTier (tiers.filter fun t => decide (t.min_quantity ≤ q))) ∧
    bestPrice ⟨100, [⟨20, 85⟩, ⟨20, 82⟩]⟩ 20 = 85 ∧
    bestPrice ⟨100, [⟨20, 82⟩, ⟨20, 85⟩]⟩ 20 = 82 :=
  ⟨selectedTier_eq, by decide, by decide⟩

/-- C4: `handleSubmit` stores `unit_price` from the first qualifying
tier in raw array order (`find` without sorting) but `total_price` from
`calculateItemPrice`, which resolves the deepest qualifying tier; for
base price 100, tiers stored as 10→90 then 25→80, and quantity 30, the
stored line has `unit_price = 90` yet `total_price = 2400 = 80 * 30`,
so `total_price ≠ unit_price * quantity`. -/
theorem submitted_line_total_mismatch :
    (submittedLine ⟨1, 100, 30, [⟨10, 90⟩, ⟨25, 80⟩]⟩).unit_price = 90 ∧
    (submittedLine ⟨1, 100, 30, [⟨10, 90⟩, ⟨25, 80⟩]⟩).total_price = 2400 ∧
    (submittedLine ⟨1, 100, 30, [⟨10, 90⟩, ⟨25, 80⟩]⟩).total_price ≠
      (submittedLine ⟨1, 100, 30, [⟨10, 90⟩, ⟨25, 80⟩]⟩).unit_price *
        ((submittedLine ⟨1, 100, 30, [⟨10, 90⟩, ⟨25, 80⟩]⟩).quantity : Rat) := by
  refine ⟨?_, ?_, ?_⟩ <;>
    norm_num [submittedLine, calculateItemPrice, selectedTier, sortTiersDesc, tierGE]

/-- C5 counterexample: with base price 0 the edge function computes
`savings / originalTotal` as `0 / 0`, the non-finite result modelled as
`none`; the reported `savings_percentage` is not the claimed 0. -/
theorem zero_base_price_guard_counterexample :
    (mkPricingResponse 1 ⟨0, []⟩ 1).savings_percentage ≠ some 0 := by
  norm_num [mkPricingResponse, bestPrice, selectedTier, sortTiersDesc]
  simp

/-- C5 amended: for every item with base price 0 and every quantity, the
division by the zero base total is NOT guarded: `savings_percentage` is
the non-finite value (`NaN`/`Infinity`, modelled `none`, serialized as
`null`), never the number 0 and never a thrown error. -/
theorem zero_base_price_savings_none (inventory : InventoryItem) (q : Int)
    (h : inventory.base_price = 0) :
    (mkPricingResponse 1 inventory q).savings_percentage = none := by
  simp [mkPricingResponse, h]

/-- C5 witness: a zero-base-price item with a tier, quantity 5. -/
theorem zero_base_price_savings_none_witness :
    (mkPricingResponse 1 ⟨0, [⟨10, 90⟩]⟩ 5).savings_percentage = none :=
  zero_base_price_savings_none ⟨0, [⟨10, 90⟩]⟩ 5 rfl

/-- C6 counterexample: a request with `total_quantity = 0 < 1` against a
known item is accepted (the handler performs no quantity validation), so
the claimed InvalidArgument failure does not exist. -/
theorem invalid_quantity_accepted_counterexample :
    ((⟨1, 0⟩ : PricingRequest).total_quantity < 1) ∧
    (serveHandler [(1, ⟨100, [⟨10, 90⟩]⟩)] ⟨1, 0⟩).isOk = true := by
  decide

/-- C6 amended: the handler fails exactly when the inventory lookup
finds no row for `inventory_id` (the `.single()` error propagates to the
catch-all HTTP 400); `total_quantity < 1` is not validated and yields a
normal response, and an item with zero tiers and zero base price yields
a degraded all-zero response, not an error. -/
theorem serveHandler_fails_iff_unknown_item :
    (∀ (db : List (Nat × InventoryItem)) (req : PricingRequest),
      (serveHandler db req).isOk = false ↔
        db.find? (fun row => decide (row.1 = req.inventory_id)) = none) ∧
    (serveHandler [] ⟨1, 3⟩).isOk = false ∧
    (serveHandler [(1, ⟨0, []⟩)] ⟨1, 3⟩).isOk = true ∧
    (mkPricingResponse 1 ⟨0, []⟩ 3).total_amount = 0 ∧
    (mkPricingResponse 1 ⟨0, []⟩ 3).savings_amount = 0 := by
  refine ⟨?_, by decide, by decide, ?_, ?_⟩
  · intro db req
    unfold serveHandler
    cases h : db.find? (fun row => decide (row.1 = req.inventory_id)) with
    | none =>
      exact iff_of_true rfl rfl
    | some row =>
      exact iff_of_false (fun hcon => Bool.noConfusion hcon)
        (fun hcon => Option.noConfusion hcon)
  · norm_num [mkPricingResponse, bestPrice, selectedTier, sortTiersDesc]
  · norm_num [mkPricingResponse, bestPrice, selectedTier, sortTiersDesc]

/-- C7: when no tier qualifies (the tier set is empty or every
`min_quantity` exceeds the quantity), both resolvers fall back to the
base price: `bestPrice` returns it and `calculateItemPrice` returns
base price times quantity. -/
theorem no_qualifying_tier_fallback (base : Rat) (tiers : List BulkTier)
    (inventory_id : Nat) (q : Int) (hq : 1 ≤ q)
    (h : ∀ t ∈ tiers, q < t.min_quantity) :
    bestPrice ⟨base, tiers⟩ q = base ∧
    calculateItemPrice ⟨inventory_id, base, q, tiers⟩ = base * (q : Rat) := by
  have hfil : tiers.filter (fun t => decide (t.min_quantity ≤ q)) = [] := by
    rw [List.filter_eq_nil_iff]
    intro t ht
    simpa using not_le.mpr (h t ht)
  have hsel : selectedTier tiers q = none := by
    simp [selectedTier, sortTiersDesc, hfil, List.insertionSort]
  constructor
  · unfold bestPrice
    by_cases hlen : tiers.length > 0
    · simp only [hlen, if_true, hsel]
    · simp only [hlen, if_false]
  · unfold calculateItemPrice
    by_cases hlen : tiers.length > 0
    · simp only [hlen, if_true, hsel]
    · simp only [hlen, if_false]

/-- C7 witness: one tier with threshold 10, quantity 5. -/
theorem no_qualifying_tier_fallback_witness :
    bestPrice ⟨100, [⟨10, 90⟩]⟩ 5 = 100 ∧
    calculateItemPrice ⟨1, 100, 5, [⟨10, 90⟩]⟩ = 100 * ((5 : Int) : Rat) :=
  no_qualifying_tier_fallback 100 [⟨10, 90⟩] 1 5 (by decide) (by decide)

/-- C8: tier selection is monotone in the quantity - whenever both
quantities select a tier and `q1 < q2`, the tier selected for `q2` has a
`min_quantity` at least that of the tier selected for `q1`. -/
theorem tier_selection_monotone (tiers : List BulkTier) (q1 q2 : Int)
    (t1 t2 : BulkTier) (hq : q1 < q2)
    (h1 : selectedTier tiers q1 = some t1) (h2 : selectedTier tiers q2 = some t2) :
    t1.min_quantity ≤ t2.min_quantity := by
  obtain ⟨hmem1, hle1, -⟩ := selectedTier_spec h1
  obtain ⟨-, -, hmax2⟩ := selectedTier_spec h2
  exact hmax2 t1 hmem1 (le_trans hle1 (le_of_lt hq))

/-- C8 witness: quantities 15 and 30 over tiers 10→90 and 25→80. -/
theorem tier_selection_monotone_witness :
    (BulkTier.mk 10 90).min_quantity ≤ (BulkTier.mk 25 80).min_quantity :=
  tier_selection_monotone [⟨10, 90⟩, ⟨25, 80⟩] 15 30 ⟨10, 90⟩ ⟨25, 80⟩ (by decide)
    (by decide) (by decide)

/-- C9 counterexample: the order UI offers NO transition to `cancelled`
from `confirmed`, `preparing` or `ready` - the only cancellation is the
supplier Decline button on `pending` - so the claimed cancellability of
those three states fails. -/
theorem cancel_from_mid_states_counterexample :
    (Role.supplier, OrderStatus.confirmed, OrderStatus.cancelled) ∉ uiTransitions ∧
    (Role.vendor, OrderStatus.confirmed, OrderStatus.cancelled) ∉ uiTransitions ∧
    (Role.supplier, OrderStatus.preparing, OrderStatus.cancelled) ∉ uiTransitions ∧
    (Role.supplier, OrderStatus.ready, OrderStatus.cancelled) ∉ uiTransitions := by
  decide

/-- C9 amended: every status transition reachable from the order UI
moves forward (never backward) along
pending → confirmed → preparing → ready → delivered, `cancelled` is
reachable only from `pending` (the supplier Decline button), every
transition out of `pending` is supplier-driven, and
pending → cancelled is offered. -/
theorem order_status_forward_monotone :
    (∀ tr ∈ uiTransitions, statusRank tr.2.1 ≤ statusRank tr.2.2) ∧
    (∀ tr ∈ uiTransitions, tr.2.2 = OrderStatus.cancelled → tr.2.1 = OrderStatus.pending) ∧
    (∀ tr ∈ uiTransitions, tr.2.1 = OrderStatus.pending → tr.1 = Role.supplier) ∧
    (Role.supplier, OrderStatus.pending, OrderStatus.cancelled) ∈ uiTransitions := by
  decide

/-- C9 witness: the supplier Confirm button moves forward. -/
theorem order_status_forward_monotone_witness :
    statusRank OrderStatus.pending ≤ statusRank OrderStatus.confirmed :=
  order_status_forward_monotone.1
    (Role.supplier, OrderStatus.pending, OrderStatus.confirmed) (by decide)

/-- Every cart produced from a cart of positive-quantity lines by a
sequence of UI operations whose added items have `minimum_quantity` at
least 1 again has only positive-quantity lines. -/
lemma cart_invariant_aux : ∀ (ops : List CartOp) (cart : List CartItem),
    (ops.all addOk) = true → (∀ c ∈ cart, 1 ≤ c.quantity) →
    ∀ c ∈ applyCartOps cart ops, 1 ≤ c.quantity := by
  intro ops
  induction ops with
  | nil =>
    intro cart _ hc c hc'
    exact hc c hc'
  | cons op ops ih =>
    intro cart hall hc
    simp only [List.all_cons, Bool.and_eq_true] at hall
    have hstep : ∀ c ∈ applyCartOp cart op, 1 ≤ c.quantity := by
      cases op with
      | add item =>
        have hmin : 1 ≤ item.minimum_quantity := by simpa [addOk] using hall.1
        simp only [applyCartOp, addToCart]
        cases hfind : cart.find? (fun c => decide (c.inventory_id = item.id)) with
        | some c0 =>
          intro c hcmem
          obtain ⟨c', hc', rfl⟩ := List.mem_map.mp hcmem
          by_cases he : c'.inventory_id = item.id
          · simp only [if_pos he]
            have := hc c' hc'
            show 1 ≤ c'.quantity + 1
            omega
          · simp only [if_neg he]
            exact hc c' hc'
        | none =>
          intro c hcmem
          rcases List.mem_append.mp hcmem with hcmem | hcmem
          · exact hc c hcmem
          · simp only [List.mem_singleton] at hcmem
            subst hcmem
            simpa using hmin
      | setQty iid qty =>
        simp only [applyCartOp, updateQuantity]
        by_cases hqty : qty ≤ 0
        · rw [if_pos hqty]
          intro c hcmem
          exact hc c (List.mem_filter.mp hcmem).1
        · rw [if_neg hqty]
          intro c hcmem
          obtain ⟨c', hc', rfl⟩ := List.mem_map.mp hcmem
          by_cases he : c'.inventory_id = iid
          · simp only [if_pos he]
            show 1 ≤ qty
            omega
          · simp only [if_neg he]
            exact hc c' hc'
    have hfold : applyCartOps cart (op :: ops) = applyCartOps (applyCartOp cart op) ops := rfl
    rw [hfold]
    exact ih _ hall.2 hstep

/-- C10: every cart reachable from the empty cart through `addToCart`
and `updateQuantity` has only positive-quantity lines, provided every
added item has `minimum_quantity` at least 1; `updateQuantity` with a
non-positive quantity removes the line entirely; and a line added for a
not-yet-present item starts at the item's `minimum_quantity`. -/
theorem cart_lines_positive :
    (∀ (ops : List CartOp), (ops.all addOk) = true →
      ∀ c ∈ applyCartOps [] ops, 1 ≤ c.quantity) ∧
    (∀ (cart : List CartItem) (inventory_id : Nat) (q : Int), q ≤ 0 →
      ∀ c ∈ updateQuantity cart inventory_id q, c.inventory_id ≠ inventory_id) ∧
    (∀ (cart : List CartItem) (item : StockItem),
      cart.find? (fun c => decide (c.inventory_id = item.id)) = none →
      ∃ c ∈ addToCart cart item,
        c.inventory_id = item.id ∧ c.quantity = item.minimum_quantity) := by
  refine ⟨?_, ?_, ?_⟩
  · intro ops hall
    exact cart_invariant_aux ops [] hall (by intro c hc; cases hc)
  · intro cart inventory_id q hq c hcmem
    unfold updateQuantity at hcmem
    rw [if_pos hq] at hcmem
    have := (List.mem_filter.mp hcmem).2
    simpa using this
  · intro cart item hfind
    refine ⟨{ inventory_id := item.id, base_price := item.base_price,
              quantity := item.minimum_quantity, bulk_tiers := item.bulk_tiers },
      ?_, rfl, rfl⟩
    unfold addToCart
    rw [hfind]
    exact List.mem_append_right _ (List.mem_singleton.mpr rfl)

/-- C10 witness: an add at minimum quantity 5, a removal by setting 0,
then an add of a second item. -/
theorem cart_lines_positive_witness :
    ((applyCartOps [] [CartOp.add ⟨1, 100, 5, []⟩, CartOp.setQty 1 0,
        CartOp.add ⟨2, 50, 3, [⟨10, 45⟩]⟩]).all fun c => decide (1 ≤ c.quantity)) = true := by
  refine List.all_eq_true.mpr ?_
  intro c hc
  exact decide_eq_true (cart_lines_positive.1 _ (by decide) c hc)

end Sanchay
